import Mathlib

/-!
# Verification of the easy-comment-system client synchronization code

Shallow embedding of the client-side synchronization and delayed-rendering
code of the repository:

* `src/hooks/useSocket.ts` — the public-role socket agent (`useSocket`):
  its local comment list, settings, per-comment delay timers
  (`pendingCommentsRef`), fallback timer (`fallbackTimeoutRef`), and the
  handlers for the push events `new_comment`, `initial_comments`,
  `settings_updated`, `comment_deleted`, `comment_hidden`, `comment_shown`,
  `instance_deleted`, plus the join/fallback effect.
* `src/hooks/useAdminSocket.ts` — the moderator-role agent (`useAdminSocket`).
* `src/pages/display/[id].tsx` — the display page's lag effect, which
  promotes comments from the agent's list to `visibleComments` once
  `lag_seconds` have elapsed since each comment's creation timestamp.

Conventions: times are integers in milliseconds (the code computes
`new Date(comment.timestamp).getTime()` and `Date.now()`);
`setTimeout` handles are modelled as entries recording the comment id,
the absolute fire time and the payload the timeout closure captured;
JavaScript `Map` keyed by comment id becomes an association list where
`set` replaces an existing entry with the same key.  Each handler is a
pure function from state to state; a React effect run is a pure function
applied after its dependencies change, with its cleanup (which clears
the timer map) folded into the next run.
-/

namespace EasyComment

/-- The `Comment` record of `src/types.ts` (`src/unnamed/part_002`).
`timestamp` is the server-assigned creation time in milliseconds;
`hidden` is optional in TypeScript and defaults to `false`. -/
structure Comment where
  id : String
  instance_id : String
  author : String
  content : String
  timestamp : Int
  approved : Bool
  hidden : Bool := false
deriving Repr, DecidableEq

/-- The `DisplaySettings` record of `src/types.ts` (`src/unnamed/part_002`). -/
structure DisplaySettings where
  background_color : String := "#00FF00"
  text_color : String := "#000000"
  font_size : Nat := 16
  max_comments : Nat := 50
  auto_scroll : Bool := true
  show_timestamp : Bool := true
  moderation_enabled : Bool := false
  comment_width : Nat := 100
  background_opacity : Nat := 30
  text_opacity : Nat := 100
  comment_background_color : String := "#FFFFFF"
  lag_seconds : Nat := 0
deriving Repr, DecidableEq

/-- A live `setTimeout` handle held in a `Map` keyed by comment id
(`pendingCommentsRef` in `useSocket.ts`, `lagTimerRef` in
`display/[id].tsx`): the key, the absolute time at which the timeout
fires, and the comment the timeout closure captured. -/
structure TimerEntry where
  commentId : String
  fireAt : Int
  payload : Comment
deriving Repr, DecidableEq

/-- The local state of the public-role agent `useSocket`:
`comments`/`settings` React state, the `pendingCommentsRef` map of
per-comment delay timers, and the `fallbackTimeoutRef` timer (absolute
fire time when armed). -/
structure SocketState where
  comments : List Comment
  settings : Option DisplaySettings
  pendingComments : List TimerEntry
  fallbackTimeout : Option Int
deriving Repr, DecidableEq

/-- `settings?.lag_seconds || 0` in `handleNewComment`: `0` when settings
are absent, otherwise the stored lag (`0 || 0 = 0`, so a stored lag of
zero also yields `0`). -/
def lagSecondsOf : Option DisplaySettings → Nat
  | none => 0
  | some s => s.lag_seconds

/-- `handleNewComment` in `useSocket.ts`: with a positive lag the comment
is not appended now; a timeout is armed for `lagSeconds * 1000`
milliseconds from arrival and recorded in the pending map (`Map.set`
replaces an entry with the same id).  With lag `0` (settings absent or
lag zero) the comment is appended to the list immediately. -/
def handleNewComment (now : Int) (comment : Comment) (st : SocketState) : SocketState :=
  let lagSeconds := lagSecondsOf st.settings
  if lagSeconds > 0 then
    { st with pendingComments :=
        (st.pendingComments.filter (fun t => t.commentId ≠ comment.id)) ++
          [⟨comment.id, now + (lagSeconds : Int) * 1000, comment⟩] }
  else
    { st with comments := st.comments ++ [comment] }

/-- Firing of the timeout armed by `handleNewComment`: appends the captured
comment to the list and deletes the map entry.  Fires only while the entry
is in the map (a cleared timeout never runs). -/
def firePendingComment (id : String) (st : SocketState) : SocketState :=
  match st.pendingComments.find? (fun t => t.commentId = id) with
  | none => st
  | some t =>
      { st with comments := st.comments ++ [t.payload],
                pendingComments := st.pendingComments.filter (fun u => u.commentId ≠ id) }

/-- The `initial_comments` handler: the snapshot replaces the list
wholesale and the fallback timer is cleared. -/
def onInitialComments (cs : List Comment) (st : SocketState) : SocketState :=
  { st with comments := cs, fallbackTimeout := none }

/-- The `settings_updated` handler: settings are replaced wholesale. -/
def onSettingsUpdated (s : DisplaySettings) (st : SocketState) : SocketState :=
  { st with settings := some s }

/-- The `comment_deleted` handler: the comment is filtered out of the list
and its pending delay timer, if any, is cleared from the map. -/
def onCommentDeleted (id : String) (st : SocketState) : SocketState :=
  { st with comments := st.comments.filter (fun c => c.id ≠ id),
            pendingComments := st.pendingComments.filter (fun t => t.commentId ≠ id) }

/-- The `comment_hidden` handler of `useSocket.ts`: identical body to
`comment_deleted` — for the public role hiding removes the comment and
clears its pending timer. -/
def onCommentHidden (id : String) (st : SocketState) : SocketState :=
  { st with comments := st.comments.filter (fun c => c.id ≠ id),
            pendingComments := st.pendingComments.filter (fun t => t.commentId ≠ id) }

/-- The `comment_shown` handler of `useSocket.ts`: re-inserts the delivered
payload only when no comment with that id is already present. -/
def onCommentShown (id : String) (comment : Comment) (st : SocketState) : SocketState :=
  if (st.comments.find? (fun c => c.id = id)).isSome then st
  else { st with comments := st.comments ++ [comment] }

/-- The `instance_deleted` handler of `useSocket.ts`: clears the comment
list and the settings.  Nothing else changes — in particular every other
event handler stays registered on the socket. -/
def onInstanceDeleted (st : SocketState) : SocketState :=
  { st with comments := [], settings := none }

/-- The join effect of `useSocket.ts`: resets the comment list, emits
`join_instance`, and arms the fallback timer for 2000 ms from now. -/
def joinInstance (now : Int) (st : SocketState) : SocketState :=
  { st with comments := [], fallbackTimeout := some (now + 2000) }

/-- Firing of the fallback timer: `loadCommentsFromAPI` fetches
`GET /comments/{instanceId}/` and, when the response is ok, adopts the
fetched list wholesale; the timer is spent either way. -/
def fireFallback (fetched : List Comment) (ok : Bool) (st : SocketState) : SocketState :=
  { st with comments := if ok then fetched else st.comments,
            fallbackTimeout := none }

/-- The local state of the moderator-role agent `useAdminSocket`:
`allComments` and `settings`.  It keeps no per-comment timers. -/
structure AdminSocketState where
  allComments : List Comment
  settings : Option DisplaySettings
deriving Repr, DecidableEq

/-- The `new_comment` handler of `useAdminSocket.ts`: unconditional append. -/
def adminNewComment (comment : Comment) (st : AdminSocketState) : AdminSocketState :=
  { st with allComments := st.allComments ++ [comment] }

/-- The `initial_admin_comments` handler: replaces the list wholesale. -/
def adminInitialComments (cs : List Comment) (st : AdminSocketState) : AdminSocketState :=
  { st with allComments := cs }

/-- The `comment_hidden` handler of `useAdminSocket.ts`: marks the matching
entry hidden, leaving every other entry unchanged. -/
def adminCommentHidden (id : String) (st : AdminSocketState) : AdminSocketState :=
  { st with allComments :=
      st.allComments.map (fun c => if c.id = id then { c with hidden := true } else c) }

/-- The `comment_shown` handler of `useAdminSocket.ts`: clears the hidden
marker on the matching entry, leaving every other entry unchanged. -/
def adminCommentShown (id : String) (st : AdminSocketState) : AdminSocketState :=
  { st with allComments :=
      st.allComments.map (fun c => if c.id = id then { c with hidden := false } else c) }

/-- The `comment_deleted` handler of `useAdminSocket.ts`: filters the
comment out. -/
def adminCommentDeleted (id : String) (st : AdminSocketState) : AdminSocketState :=
  { st with allComments := st.allComments.filter (fun c => c.id ≠ id) }

/-- The `instance_deleted` handler of `useAdminSocket.ts`: clears the list
and the settings; all handlers stay registered. -/
def adminInstanceDeleted (st : AdminSocketState) : AdminSocketState :=
  { st with allComments := [], settings := none }

/-- The state the lag effect of `src/pages/display/[id].tsx` works on:
the `comments` list delivered by `useSocket`, the promoted
`visibleComments` list, and the `lagTimerRef` map of per-comment delay
timers. -/
structure DisplayState where
  comments : List Comment
  visibleComments : List Comment
  lagTimers : List TimerEntry
deriving Repr, DecidableEq

/-- The `comments.forEach` loop of the lag effect in
`src/pages/display/[id].tsx` (positive-lag branch).  A comment already in
the `visibleComments` render snapshot or already keyed in the timer map is
skipped; otherwise `timeElapsed = now − commentTime` is compared with
`lagMs`: past-due comments are appended to the visible list at once, the
rest get a timeout armed for `lagMs − timeElapsed` milliseconds.
`visible` accumulates the functional `setVisibleComments` updates while
the skip check reads the stale `visibleComments` snapshot `snap`, exactly
as in the closure; `timers` is the mutable map, read and written in loop
order. -/
def lagEffectLoop (lagMs now : Int) (snap : List Comment) :
    List Comment → List TimerEntry → List Comment → List Comment × List TimerEntry
  | visible, timers, [] => (visible, timers)
  | visible, timers, comment :: rest =>
    if (snap.find? (fun c => c.id = comment.id)).isSome
        || (timers.find? (fun t => t.commentId = comment.id)).isSome then
      lagEffectLoop lagMs now snap visible timers rest
    else if now - comment.timestamp ≥ lagMs then
      lagEffectLoop lagMs now snap (visible ++ [comment]) timers rest
    else
      lagEffectLoop lagMs now snap visible
        (timers ++ [⟨comment.id, now + (lagMs - (now - comment.timestamp)), comment⟩]) rest

/-- One run of the lag effect of `src/pages/display/[id].tsx`.  The
previous run's cleanup has already cleared the timer map (it runs before
every re-execution), so the run starts from an empty map.  With lag `0`
or absent settings the visible list is replaced by the comment list
wholesale; with a positive lag the `forEach` loop promotes or schedules
each comment not yet visible. -/
def runLagEffect (lagSeconds : Nat) (now : Int) (st : DisplayState) : DisplayState :=
  if lagSeconds = 0 then { st with visibleComments := st.comments, lagTimers := [] }
  else
    let lagMs : Int := (lagSeconds : Int) * 1000
    let r := lagEffectLoop lagMs now st.visibleComments st.visibleComments [] st.comments
    { st with visibleComments := r.1, lagTimers := r.2 }

/-- Firing of a timeout armed by the lag effect: the captured comment is
appended to `visibleComments` and the map entry is deleted.  A cleared
timeout never runs, so firing an absent id is the identity. -/
def fireLagTimer (id : String) (st : DisplayState) : DisplayState :=
  match st.lagTimers.find? (fun t => t.commentId = id) with
  | none => st
  | some t =>
      { st with visibleComments := st.visibleComments ++ [t.payload],
                lagTimers := st.lagTimers.filter (fun u => u.commentId ≠ id) }

/-- The push events `useSocket` subscribes to, as delivered to a
display-role agent. -/
inductive SocketEvent where
  | new_comment (c : Comment)
  | initial_comments (cs : List Comment)
  | comment_deleted (id : String)
  | comment_hidden (id : String)
  | comment_shown (id : String) (c : Comment)
  | instance_deleted
deriving Repr, DecidableEq

/-- Effect of a push event on the `comments` list of `useSocket` (the
socket-level lag is zero until a `settings_updated` event arrives, so
`new_comment` appends immediately; each handler body is as above). -/
def socketApply (ev : SocketEvent) (cs : List Comment) : List Comment :=
  match ev with
  | SocketEvent.new_comment c => cs ++ [c]
  | SocketEvent.initial_comments l => l
  | SocketEvent.comment_deleted id => cs.filter (fun c => c.id ≠ id)
  | SocketEvent.comment_hidden id => cs.filter (fun c => c.id ≠ id)
  | SocketEvent.comment_shown id c =>
      if (cs.find? (fun x => x.id = id)).isSome then cs else cs ++ [c]
  | SocketEvent.instance_deleted => []

/-- One scheduling-relevant occurrence at a display-role agent: either a
push event handled by `useSocket` or the firing of one of the lag
effect's timeouts.  Either one changes a dependency of the lag effect
(`comments` resp. `visibleComments`), so the effect re-runs after it. -/
inductive DisplayStep where
  | event (ev : SocketEvent)
  | timerFire (id : String)
deriving Repr, DecidableEq

/-- Processing of one `DisplayStep` at time `now`: apply the socket
handler or fire the timeout, then re-run the lag effect (its cleanup
having cleared the timer map, which `runLagEffect` rebuilds). -/
def displayStep (lagSeconds : Nat) (now : Int) (st : DisplayState) :
    DisplayStep → DisplayState
  | DisplayStep.event ev =>
      runLagEffect lagSeconds now { st with comments := socketApply ev st.comments }
  | DisplayStep.timerFire id =>
      runLagEffect lagSeconds now (fireLagTimer id st)

/-- Processing of a timed sequence of steps. -/
def runSteps (lagSeconds : Nat) (st : DisplayState) :
    List (Int × DisplayStep) → DisplayState
  | [] => st
  | (now, s) :: rest => runSteps lagSeconds (displayStep lagSeconds now st s) rest

/-- A step can put a comment with the given id back into the agent's
`comments` list only by carrying it in its payload: a `new_comment` with
that id, a snapshot containing it, or a `comment_shown` whose payload
has it. -/
def introducesId (id : String) : DisplayStep → Bool
  | DisplayStep.event (SocketEvent.new_comment c) => c.id == id
  | DisplayStep.event (SocketEvent.initial_comments cs) => cs.any (fun c => c.id == id)
  | DisplayStep.event (SocketEvent.comment_shown _ c) => c.id == id
  | _ => false

/-- No trace of the given comment id anywhere in a display agent's state:
not in the comment list, not promoted, and no timer keyed by it or
carrying it as payload. -/
def idAbsent (id : String) (st : DisplayState) : Prop :=
  (∀ c ∈ st.comments, c.id ≠ id) ∧ (∀ v ∈ st.visibleComments, v.id ≠ id) ∧
    (∀ t ∈ st.lagTimers, t.commentId ≠ id ∧ t.payload.id ≠ id)

/-- Sample comment for concrete witnesses: created at time 0. -/
def sampleA : Comment := ⟨"c1", "i1", "alice", "hello", 0, true, false⟩

/-- Sample comment for concrete witnesses: created at time 1000. -/
def sampleB : Comment := ⟨"c2", "i1", "bob", "yo", 1000, true, false⟩

/-- Freshly mounted public agent state for concrete witnesses. -/
def emptySocket : SocketState := ⟨[], none, [], none⟩

/-! ## Helper lemmas about the lag-effect loop -/

/-- Structure of one loop run: the visible list and the timer map only
grow, the new visible entries come from the input list, and every new
timer is keyed by its payload's id, carries a payload from the input,
and fires `lagMs − (now − timestamp)` milliseconds from `now`. -/
lemma lagEffectLoop_spec (lagMs now : Int) (snap : List Comment) :
    ∀ (input visible : List Comment) (timers : List TimerEntry),
    ∃ l ts,
      lagEffectLoop lagMs now snap visible timers input = (visible ++ l, timers ++ ts) ∧
      (∀ c ∈ l, c ∈ input) ∧
      (∀ t ∈ ts, t.payload ∈ input ∧ t.commentId = t.payload.id ∧
        t.fireAt = now + (lagMs - (now - t.payload.timestamp))) := by
  intro input
  induction input with
  | nil =>
      intro visible timers
      exact ⟨[], [], by simp [lagEffectLoop]⟩
  | cons comment rest ih =>
      intro visible timers
      by_cases hskip : ((snap.find? (fun c => c.id = comment.id)).isSome
          || (timers.find? (fun t => t.commentId = comment.id)).isSome) = true
      · obtain ⟨l, ts, heq, hl, hts⟩ := ih visible timers
        refine ⟨l, ts, ?_, ?_, ?_⟩
        · rw [lagEffectLoop, if_pos hskip]; exact heq
        · exact fun c hc => List.mem_cons_of_mem _ (hl c hc)
        · exact fun t ht =>
            ⟨List.mem_cons_of_mem _ (hts t ht).1, (hts t ht).2.1, (hts t ht).2.2⟩
      · by_cases hdue : now - comment.timestamp ≥ lagMs
        · obtain ⟨l, ts, heq, hl, hts⟩ := ih (visible ++ [comment]) timers
          refine ⟨comment :: l, ts, ?_, ?_, ?_⟩
          · rw [lagEffectLoop, if_neg hskip, if_pos hdue, heq]
            simp
          · intro c hc
            rcases List.mem_cons.mp hc with h | h
            · exact h ▸ List.mem_cons_self _ _
            · exact List.mem_cons_of_mem _ (hl c h)
          · exact fun t ht =>
              ⟨List.mem_cons_of_mem _ (hts t ht).1, (hts t ht).2.1, (hts t ht).2.2⟩
        · obtain ⟨l, ts, heq, hl, hts⟩ :=
            ih visible
              (timers ++ [⟨comment.id, now + (lagMs - (now - comment.timestamp)), comment⟩])
          refine ⟨l, ⟨comment.id, now + (lagMs - (now - comment.timestamp)), comment⟩ :: ts,
            ?_, ?_, ?_⟩
          · rw [lagEffectLoop, if_neg hskip, if_neg hdue, heq]
            simp
          · exact fun c hc => List.mem_cons_of_mem _ (hl c hc)
          · intro t ht
            rcases List.mem_cons.mp ht with h | h
            · subst h
              exact ⟨List.mem_cons_self _ _, rfl, rfl⟩
            · exact ⟨List.mem_cons_of_mem _ (hts t h).1, (hts t h).2.1, (hts t h).2.2⟩

/-- Fate of one comment under one loop run, when the input list carries no
duplicate ids, the render snapshot does not show the comment yet and no
timer is keyed by it: a past-due comment (`now − timestamp ≥ lagMs`) ends
up promoted, any other comment is not promoted but owns exactly one timer,
keyed by its id, firing at `now + (lagMs − (now − timestamp))`. -/
lemma lagEffectLoop_processes (lagMs now : Int) (snap : List Comment) :
    ∀ (input visible : List Comment) (timers : List TimerEntry) (c : Comment),
    c ∈ input →
    (input.map Comment.id).Nodup →
    (∀ v ∈ snap, v.id ≠ c.id) →
    (∀ t ∈ timers, t.commentId ≠ c.id) →
    c ∉ visible →
    ((now - c.timestamp ≥ lagMs →
        c ∈ (lagEffectLoop lagMs now snap visible timers input).1) ∧
     (¬ now - c.timestamp ≥ lagMs →
        c ∉ (lagEffectLoop lagMs now snap visible timers input).1 ∧
        (⟨c.id, now + (lagMs - (now - c.timestamp)), c⟩ : TimerEntry)
          ∈ (lagEffectLoop lagMs now snap visible timers input).2 ∧
        (∀ t ∈ (lagEffectLoop lagMs now snap visible timers input).2,
          t.commentId = c.id →
            t = ⟨c.id, now + (lagMs - (now - c.timestamp)), c⟩))) := by
  intro input
  induction input with
  | nil =>
      intro visible timers c hc
      exact absurd hc (List.not_mem_nil c)
  | cons d rest ih =>
      intro visible timers c hc hnodup hsnap htimers hvis
      have hnodup' : (d.id ∉ rest.map Comment.id) ∧ (rest.map Comment.id).Nodup := by
        simpa [List.nodup_cons] using hnodup
      rcases List.mem_cons.mp hc with hceq | hcrest
      · subst hceq
        have h1 : snap.find? (fun x => x.id = c.id) = none :=
          List.find?_eq_none.mpr (by intro v hv; simpa using hsnap v hv)
        have h2 : timers.find? (fun t => t.commentId = c.id) = none :=
          List.find?_eq_none.mpr (by intro t ht; simpa using htimers t ht)
        have hskip : ¬ (((snap.find? (fun x => x.id = c.id)).isSome
            || (timers.find? (fun t => t.commentId = c.id)).isSome) = true) := by
          simp [h1, h2]
        have hcnotrest : c ∉ rest := by
          intro hmem
          exact hnodup'.1 (List.mem_map_of_mem Comment.id hmem)
        by_cases hdue : now - c.timestamp ≥ lagMs
        · obtain ⟨l, ts, heq, hl, hts⟩ :=
            lagEffectLoop_spec lagMs now snap rest (visible ++ [c]) timers
          constructor
          · intro _
            rw [lagEffectLoop, if_neg hskip, if_pos hdue, heq]
            simp
          · intro hnot
            exact absurd hdue hnot
        · obtain ⟨l, ts, heq, hl, hts⟩ :=
            lagEffectLoop_spec lagMs now snap rest visible
              (timers ++ [⟨c.id, now + (lagMs - (now - c.timestamp)), c⟩])
          constructor
          · intro hdue'
            exact absurd hdue' hdue
          · intro _
            rw [lagEffectLoop, if_neg hskip, if_neg hdue, heq]
            refine ⟨?_, ?_, ?_⟩
            · intro hmem
              rcases List.mem_append.mp hmem with h | h
              · exact hvis h
              · exact hcnotrest (hl c h)
            · simp
            · intro t ht htid
              rcases List.mem_append.mp ht with h | h
              · rcases List.mem_append.mp h with h' | h'
                · exact absurd htid (htimers t h')
                · simpa using h'
              · obtain ⟨hpay, hkey, _⟩ := hts t h
                exfalso
                apply hnodup'.1
                rw [← htid, hkey]
                exact List.mem_map_of_mem Comment.id hpay
      · have hdid : d.id ≠ c.id := by
          intro h
          exact hnodup'.1 (h ▸ List.mem_map_of_mem Comment.id hcrest)
        have hdnec : c ≠ d := fun h => hdid (h ▸ rfl)
        by_cases hskip : (((snap.find? (fun x => x.id = d.id)).isSome
            || (timers.find? (fun t => t.commentId = d.id)).isSome) = true)
        · rw [lagEffectLoop, if_pos hskip]
          exact ih visible timers c hcrest hnodup'.2 hsnap htimers hvis
        · by_cases hdue : now - d.timestamp ≥ lagMs
          · rw [lagEffectLoop, if_neg hskip, if_pos hdue]
            refine ih (visible ++ [d]) timers c hcrest hnodup'.2 hsnap htimers ?_
            intro hmem
            rcases List.mem_append.mp hmem with h | h
            · exact hvis h
            · exact hdnec (by simpa using h)
          · rw [lagEffectLoop, if_neg hskip, if_neg hdue]
            refine ih visible
              (timers ++ [⟨d.id, now + (lagMs - (now - d.timestamp)), d⟩]) c hcrest
              hnodup'.2 hsnap ?_ hvis
            intro t ht
            rcases List.mem_append.mp ht with h | h
            · exact htimers t h
            · have : t = ⟨d.id, now + (lagMs - (now - d.timestamp)), d⟩ := by simpa using h
              rw [this]
              exact hdid

/-- Firing the unique timer keyed by a comment's id promotes exactly that
comment and leaves no timer with that id behind. -/
lemma fireLagTimer_of_unique (st : DisplayState) (c : Comment) (fa : Int)
    (hmem : (⟨c.id, fa, c⟩ : TimerEntry) ∈ st.lagTimers)
    (huniq : ∀ t ∈ st.lagTimers, t.commentId = c.id → t = ⟨c.id, fa, c⟩) :
    (fireLagTimer c.id st).visibleComments = st.visibleComments ++ [c] ∧
    (∀ t ∈ (fireLagTimer c.id st).lagTimers, t.commentId ≠ c.id) := by
  have hne : st.lagTimers.find? (fun t => t.commentId = c.id) ≠ none := by
    intro h
    have := List.find?_eq_none.mp h _ hmem
    simp at this
  cases hfind : st.lagTimers.find? (fun t => t.commentId = c.id) with
  | none => exact absurd hfind hne
  | some t =>
      have ht : t = ⟨c.id, fa, c⟩ :=
        huniq t (List.mem_of_find?_eq_some hfind)
          (by simpa using List.find?_some hfind)
      subst ht
      constructor
      · simp [fireLagTimer, hfind]
      · intro t' ht'
        simp only [fireLagTimer, hfind] at ht'
        exact of_decide_eq_true (List.mem_filter.mp ht').2

/-- A lag-effect run introduces no comment id that is in neither the
agent's list nor the visible list. -/
lemma runLagEffect_absent (lagSeconds : Nat) (now : Int) (st : DisplayState) (id : String)
    (hc : ∀ c ∈ st.comments, c.id ≠ id) (hv : ∀ v ∈ st.visibleComments, v.id ≠ id) :
    idAbsent id (runLagEffect lagSeconds now st) := by
  by_cases h0 : lagSeconds = 0
  · exact ⟨by simpa [runLagEffect, h0] using hc, by simpa [runLagEffect, h0] using hc,
      by simp [runLagEffect, h0]⟩
  · obtain ⟨l, ts, heq, hl, hts⟩ :=
      lagEffectLoop_spec ((lagSeconds : Int) * 1000) now st.visibleComments
        st.comments st.visibleComments []
    have hres : runLagEffect lagSeconds now st =
        { st with visibleComments := st.visibleComments ++ l, lagTimers := [] ++ ts } := by
      simp [runLagEffect, h0, heq]
    rw [hres]
    refine ⟨hc, ?_, ?_⟩
    · intro v hvmem
      rcases List.mem_append.mp hvmem with h | h
      · exact hv v h
      · exact hc v (hl v h)
    · intro t htmem
      obtain ⟨hpay, hkey, _⟩ := hts t (by simpa using htmem)
      exact ⟨hkey ▸ hc _ hpay, hc _ hpay⟩

/-- A socket handler introduces no comment id that its event does not
carry. -/
lemma socketApply_absent (ev : SocketEvent) (cs : List Comment) (id : String)
    (h : ∀ c ∈ cs, c.id ≠ id)
    (hev : introducesId id (DisplayStep.event ev) = false) :
    ∀ c ∈ socketApply ev cs, c.id ≠ id := by
  cases ev with
  | new_comment c =>
      intro x hx
      rcases List.mem_append.mp hx with hx | hx
      · exact h x hx
      · have hxc : x = c := by simpa using hx
        subst hxc
        simpa [introducesId] using hev
  | initial_comments l =>
      intro x hx
      simp only [introducesId, List.any_eq_false] at hev
      simpa using hev x hx
  | comment_deleted i =>
      intro x hx
      exact h x (List.mem_filter.mp hx).1
  | comment_hidden i =>
      intro x hx
      exact h x (List.mem_filter.mp hx).1
  | comment_shown i c =>
      intro x hx
      by_cases hpres : ((cs.find? (fun y => y.id = i)).isSome = true)
      · rw [socketApply, if_pos hpres] at hx
        exact h x hx
      · rw [socketApply, if_neg hpres] at hx
        rcases List.mem_append.mp hx with hx | hx
        · exact h x hx
        · have hxc : x = c := by simpa using hx
          subst hxc
          simpa [introducesId] using hev
  | instance_deleted =>
      intro x hx
      simp [socketApply] at hx

/-- No step that does not carry a given comment id brings it back into
any part of a display agent's state. -/
lemma displayStep_absent (lagSeconds : Nat) (now : Int) (st : DisplayState) (id : String)
    (step : DisplayStep) (h : idAbsent id st) (hstep : introducesId id step = false) :
    idAbsent id (displayStep lagSeconds now st step) := by
  obtain ⟨hc, hv, ht⟩ := h
  cases step with
  | event ev =>
      exact runLagEffect_absent lagSeconds now
        { st with comments := socketApply ev st.comments } id
        (socketApply_absent ev st.comments id hc hstep) hv
  | timerFire tid =>
      cases hfind : st.lagTimers.find? (fun t => t.commentId = tid) with
      | none =>
          have hfire : fireLagTimer tid st = st := by
            simp [fireLagTimer, hfind]
          show idAbsent id (runLagEffect lagSeconds now (fireLagTimer tid st))
          rw [hfire]
          exact runLagEffect_absent lagSeconds now st id hc hv
      | some t =>
          have hmem := List.mem_of_find?_eq_some hfind
          have hpay : t.payload.id ≠ id := (ht t hmem).2
          have hfire : fireLagTimer tid st =
              { st with visibleComments := st.visibleComments ++ [t.payload],
                        lagTimers := st.lagTimers.filter (fun u => u.commentId ≠ tid) } := by
            simp [fireLagTimer, hfind]
          show idAbsent id (runLagEffect lagSeconds now (fireLagTimer tid st))
          rw [hfire]
          refine runLagEffect_absent lagSeconds now _ id hc ?_
          intro v hvmem
          rcases List.mem_append.mp hvmem with hvm | hvm
          · exact hv v hvm
          · have : v = t.payload := by simpa using hvm
            exact this ▸ hpay

/-- Absence of a comment id is preserved along any sequence of steps none
of which carries it. -/
lemma runSteps_absent (lagSeconds : Nat) (id : String) :
    ∀ (steps : List (Int × DisplayStep)) (st : DisplayState),
    idAbsent id st → (∀ p ∈ steps, introducesId id p.2 = false) →
    idAbsent id (runSteps lagSeconds st steps) := by
  intro steps
  induction steps with
  | nil =>
      intro st h _
      simpa [runSteps] using h
  | cons p rest ih =>
      intro st h hall
      obtain ⟨pnow, pstep⟩ := p
      exact ih (displayStep lagSeconds pnow st pstep)
        (displayStep_absent lagSeconds pnow st id pstep h
          (hall _ (List.mem_cons_self _ _)))
        (fun q hq => hall q (List.mem_cons_of_mem _ hq))

/-- Global shape of one positive-lag effect run: the agent's list is
untouched, the visible list is only appended to (by comments from the
agent's list), and every rebuilt timer is keyed by the id of a comment
of the agent's list. -/
lemma runLagEffect_pos_spec (lagSeconds : Nat) (h0 : ¬ lagSeconds = 0) (now : Int)
    (st : DisplayState) :
    (runLagEffect lagSeconds now st).comments = st.comments ∧
    (∃ l, (runLagEffect lagSeconds now st).visibleComments = st.visibleComments ++ l ∧
      ∀ c ∈ l, c ∈ st.comments) ∧
    (∀ t ∈ (runLagEffect lagSeconds now st).lagTimers,
      t.payload ∈ st.comments ∧ t.commentId = t.payload.id) := by
  obtain ⟨l, ts, heq, hl, hts⟩ := lagEffectLoop_spec ((lagSeconds : Int) * 1000) now
    st.visibleComments st.comments st.visibleComments []
  have hres : runLagEffect lagSeconds now st =
      { st with visibleComments := st.visibleComments ++ l, lagTimers := [] ++ ts } := by
    simp [runLagEffect, h0, heq]
  rw [hres]
  refine ⟨rfl, ⟨l, rfl, hl⟩, ?_⟩
  intro t ht
  obtain ⟨hp, hk, _⟩ := hts t (by simpa using ht)
  exact ⟨hp, hk⟩

/-! ## Claims -/

/-- C1: for every comment delivered to a display-role agent with a
configured positive lag, the scheduler (the lag effect of
`src/pages/display/[id].tsx`) computes `elapsed = now − comment.createdAt`
(here `now − c.timestamp`) and promotes the comment immediately when
`elapsed ≥ lagSeconds`; otherwise it arms a one-shot timer for
`lagSeconds − elapsed` (fire time `now + (lagMs − elapsed)`) that promotes
it exactly once on firing — so the delay is measured from the comment's
creation timestamp, not from the moment the event arrives. -/
theorem C1_delay_measured_from_creation (lagSeconds : Nat) (hlag : 0 < lagSeconds)
    (now : Int) (st : DisplayState) (c : Comment) (hc : c ∈ st.comments)
    (hnodup : (st.comments.map Comment.id).Nodup)
    (hvis : ∀ v ∈ st.visibleComments, v.id ≠ c.id) :
    (now - c.timestamp ≥ (lagSeconds : Int) * 1000 →
       c ∈ (runLagEffect lagSeconds now st).visibleComments) ∧
    (now - c.timestamp < (lagSeconds : Int) * 1000 →
       c ∉ (runLagEffect lagSeconds now st).visibleComments ∧
       (⟨c.id, now + ((lagSeconds : Int) * 1000 - (now - c.timestamp)), c⟩ : TimerEntry)
         ∈ (runLagEffect lagSeconds now st).lagTimers ∧
       (fireLagTimer c.id (runLagEffect lagSeconds now st)).visibleComments
         = (runLagEffect lagSeconds now st).visibleComments ++ [c] ∧
       ∀ t ∈ (fireLagTimer c.id (runLagEffect lagSeconds now st)).lagTimers,
         t.commentId ≠ c.id) := by
  have h0 : ¬ lagSeconds = 0 := Nat.pos_iff_ne_zero.mp hlag
  have hcvis : c ∉ st.visibleComments := fun h => hvis c h rfl
  have hproc := lagEffectLoop_processes ((lagSeconds : Int) * 1000) now st.visibleComments
    st.comments st.visibleComments [] c hc hnodup hvis (by intro t ht; simp at ht) hcvis
  have hres : runLagEffect lagSeconds now st =
      { st with
          visibleComments :=
            (lagEffectLoop ((lagSeconds : Int) * 1000) now st.visibleComments
              st.visibleComments [] st.comments).1,
          lagTimers :=
            (lagEffectLoop ((lagSeconds : Int) * 1000) now st.visibleComments
              st.visibleComments [] st.comments).2 } := by
    simp [runLagEffect, h0]
  constructor
  · intro hdue
    rw [hres]
    exact hproc.1 hdue
  · intro hlate
    obtain ⟨hnotvis, htmem, htuniq⟩ := hproc.2 (not_le.mpr hlate)
    have hfire := fireLagTimer_of_unique (runLagEffect lagSeconds now st) c
      (now + ((lagSeconds : Int) * 1000 - (now - c.timestamp)))
      (by rw [hres]; exact htmem)
      (by rw [hres]; exact htuniq)
    refine ⟨?_, ?_, hfire.1, hfire.2⟩
    · rw [hres]; exact hnotvis
    · rw [hres]; exact htmem

/-- Witness for C1 at `lagSeconds = 5`, `now = 5500`, comment `sampleB`
created at 1000 (elapsed 4500 ms < 5000 ms): not promoted, a one-shot
timer is armed for the remaining 500 ms, and firing it promotes once. -/
theorem C1_delay_measured_from_creation_witness :
    sampleB ∉ (runLagEffect 5 5500 ⟨[sampleA, sampleB], [], []⟩).visibleComments ∧
    (⟨sampleB.id, 5500 + ((5 : Int) * 1000 - (5500 - sampleB.timestamp)), sampleB⟩ :
        TimerEntry)
      ∈ (runLagEffect 5 5500 ⟨[sampleA, sampleB], [], []⟩).lagTimers ∧
    (fireLagTimer sampleB.id
        (runLagEffect 5 5500 ⟨[sampleA, sampleB], [], []⟩)).visibleComments
      = (runLagEffect 5 5500 ⟨[sampleA, sampleB], [], []⟩).visibleComments ++ [sampleB] ∧
    ∀ t ∈ (fireLagTimer sampleB.id
        (runLagEffect 5 5500 ⟨[sampleA, sampleB], [], []⟩)).lagTimers,
      t.commentId ≠ sampleB.id :=
  (C1_delay_measured_from_creation 5 (by decide) 5500 ⟨[sampleA, sampleB], [], []⟩
    sampleB (by decide) (by decide) (by decide)).2 (by decide)

/-- C2: a lag change re-runs the lag effect (the lag is a dependency of
the effect), which re-evaluates every not-yet-promoted comment against its
original creation timestamp: a newly past-due comment is promoted
immediately, any other gets a timer firing at `timestamp + newLag·1000`
(not at a time derived from its earlier scheduling), and the visible list
is only appended to, so no already-promoted comment is retracted. -/
theorem C2_lag_change_reevaluates_from_creation (newLag : Nat) (hlag : 0 < newLag)
    (now : Int) (st : DisplayState) :
    (∃ l, (runLagEffect newLag now st).visibleComments = st.visibleComments ++ l) ∧
    (∀ c ∈ st.comments, (st.comments.map Comment.id).Nodup →
      (∀ v ∈ st.visibleComments, v.id ≠ c.id) →
      ((now - c.timestamp ≥ (newLag : Int) * 1000 →
          c ∈ (runLagEffect newLag now st).visibleComments) ∧
       (now - c.timestamp < (newLag : Int) * 1000 →
          (⟨c.id, c.timestamp + (newLag : Int) * 1000, c⟩ : TimerEntry)
            ∈ (runLagEffect newLag now st).lagTimers))) := by
  have h0 : ¬ newLag = 0 := Nat.pos_iff_ne_zero.mp hlag
  constructor
  · obtain ⟨-, ⟨l, hl, -⟩, -⟩ := runLagEffect_pos_spec newLag h0 now st
    exact ⟨l, hl⟩
  · intro c hc hnodup hvis
    have hcvis : c ∉ st.visibleComments := fun h => hvis c h rfl
    have hproc := lagEffectLoop_processes ((newLag : Int) * 1000) now st.visibleComments
      st.comments st.visibleComments [] c hc hnodup hvis (by intro t ht; simp at ht) hcvis
    have hres : runLagEffect newLag now st =
        { st with
            visibleComments :=
              (lagEffectLoop ((newLag : Int) * 1000) now st.visibleComments
                st.visibleComments [] st.comments).1,
            lagTimers :=
              (lagEffectLoop ((newLag : Int) * 1000) now st.visibleComments
                st.visibleComments [] st.comments).2 } := by
      simp [runLagEffect, h0]
    constructor
    · intro hdue
      rw [hres]
      exact hproc.1 hdue
    · intro hlate
      obtain ⟨-, htmem, -⟩ := hproc.2 (not_le.mpr hlate)
      have hentry : (⟨c.id, now + ((newLag : Int) * 1000 - (now - c.timestamp)), c⟩ :
          TimerEntry) = ⟨c.id, c.timestamp + (newLag : Int) * 1000, c⟩ := by
        congr 1
        ring
      rw [hres]
      exact hentry ▸ htmem

/-- Witness for C2 at `newLag = 3`, `now = 4500`: comment `sampleB`
(created at 1000, previously scheduled under lag 5 with a timer at 6000)
is newly past-due (elapsed 3500 ms ≥ 3000 ms) and is promoted immediately,
and the visible list is only extended. -/
theorem C2_lag_change_reevaluates_from_creation_witness :
    (∃ l, (runLagEffect 3 4500
        ⟨[sampleA, sampleB], [], [⟨"c2", 6000, sampleB⟩]⟩).visibleComments
      = ([] : List Comment) ++ l) ∧
    sampleB ∈ (runLagEffect 3 4500
        ⟨[sampleA, sampleB], [], [⟨"c2", 6000, sampleB⟩]⟩).visibleComments :=
  ⟨(C2_lag_change_reevaluates_from_creation 3 (by decide) 4500
      ⟨[sampleA, sampleB], [], [⟨"c2", 6000, sampleB⟩]⟩).1,
   ((C2_lag_change_reevaluates_from_creation 3 (by decide) 4500
      ⟨[sampleA, sampleB], [], [⟨"c2", 6000, sampleB⟩]⟩).2 sampleB (by decide)
      (by decide) (by decide)).1 (by decide)⟩

/-- C3 counterexample: delivering the same `new_comment` twice to a fresh
public agent, or to a fresh moderator agent, yields a list with TWO
entries carrying that id — neither handler checks whether the id is
already present, so the claimed idempotence fails. -/
theorem C3_counterexample :
    (handleNewComment 0 sampleA (handleNewComment 0 sampleA emptySocket)).comments
      = [sampleA, sampleA] ∧
    ¬ (handleNewComment 0 sampleA
        (handleNewComment 0 sampleA emptySocket)).comments.length = 1 ∧
    (adminNewComment sampleA
        (adminNewComment sampleA ⟨[], none⟩)).allComments = [sampleA, sampleA] := by
  decide

/-- C3 amended: applying `comment_created` twice with the same comment
appends it twice — both the public handler (with no settings, hence no
socket-level delay) and the moderator handler append unconditionally,
with no duplicate-id check. -/
theorem C3_amended_creation_appends_duplicates (now now2 : Int) (c : Comment)
    (cs : List Comment) (pend : List TimerEntry) (fb : Option Int)
    (ast : AdminSocketState) :
    (handleNewComment now2 c (handleNewComment now c ⟨cs, none, pend, fb⟩)).comments
      = cs ++ [c, c] ∧
    (adminNewComment c (adminNewComment c ast)).allComments
      = ast.allComments ++ [c, c] := by
  constructor
  · simp [handleNewComment, lagSecondsOf]
  · simp [adminNewComment]

/-- C4: a comment hidden before its delay timer fires never appears in the
display agent's visible set: the hide step cancels its pending timer, and
along any subsequent steps whose events do not re-deliver that id (no
`new_comment`, snapshot or `comment_shown` payload carrying it) no comment
with that id is ever promoted. -/
theorem C4_hidden_before_fire_never_visible (lagSeconds : Nat) (now : Int)
    (st : DisplayState) (id : String)
    (hvis : ∀ v ∈ st.visibleComments, v.id ≠ id)
    (steps : List (Int × DisplayStep))
    (hsteps : ∀ p ∈ steps, introducesId id p.2 = false) :
    (∀ t ∈ (displayStep lagSeconds now st
        (DisplayStep.event (SocketEvent.comment_hidden id))).lagTimers,
      t.commentId ≠ id) ∧
    (∀ v ∈ (runSteps lagSeconds
        (displayStep lagSeconds now st
          (DisplayStep.event (SocketEvent.comment_hidden id)))
        steps).visibleComments,
      v.id ≠ id) := by
  have habs : idAbsent id (displayStep lagSeconds now st
      (DisplayStep.event (SocketEvent.comment_hidden id))) := by
    show idAbsent id (runLagEffect lagSeconds now
      { st with comments := socketApply (SocketEvent.comment_hidden id) st.comments })
    refine runLagEffect_absent lagSeconds now _ id ?_ hvis
    intro c hc
    exact of_decide_eq_true (List.mem_filter.mp hc).2
  refine ⟨fun t ht => (habs.2.2 t ht).1, ?_⟩
  exact (runSteps_absent lagSeconds id steps _ habs hsteps).2.1

/-- Witness for C4 at `lagSeconds = 5`: `sampleB` has a pending timer at
6000 and is not yet visible; hiding it at 2000 cancels the timer, and
after the (now dead) timer moment passes and another comment arrives,
nothing with id `"c2"` is visible. -/
theorem C4_hidden_before_fire_never_visible_witness :
    (∀ t ∈ (displayStep 5 2000 ⟨[sampleB], [], [⟨"c2", 6000, sampleB⟩]⟩
        (DisplayStep.event (SocketEvent.comment_hidden "c2"))).lagTimers,
      t.commentId ≠ "c2") ∧
    (∀ v ∈ (runSteps 5
        (displayStep 5 2000 ⟨[sampleB], [], [⟨"c2", 6000, sampleB⟩]⟩
          (DisplayStep.event (SocketEvent.comment_hidden "c2")))
        [(6000, DisplayStep.timerFire "c2"),
         (7000, DisplayStep.event (SocketEvent.new_comment sampleA))]).visibleComments,
      v.id ≠ "c2") :=
  C4_hidden_before_fire_never_visible 5 2000 ⟨[sampleB], [], [⟨"c2", 6000, sampleB⟩]⟩
    "c2" (by decide)
    [(6000, DisplayStep.timerFire "c2"),
     (7000, DisplayStep.event (SocketEvent.new_comment sampleA))] (by decide)

/-- C5 counterexample: with lag 5, comment `sampleA` is already promoted
(it is in `visibleComments`); processing `comment_deleted` for it removes
it from the agent's list but the lag effect only ever appends to the
visible list, so the deleted comment is still visible — the claim's
"if the comment was already promoted it is removed from the visible set"
fails. -/
theorem C5_counterexample :
    sampleA ∈ (displayStep 5 6000 ⟨[sampleA], [sampleA], []⟩
        (DisplayStep.event (SocketEvent.comment_deleted "c1"))).visibleComments ∧
    (displayStep 5 6000 ⟨[sampleA], [sampleA], []⟩
        (DisplayStep.event (SocketEvent.comment_deleted "c1"))).comments = [] := by
  decide

/-- C5 amended: for a display-role agent with positive lag, a removal
(hide or delete) cancels any pending delay timer for the id and removes
the comment from the agent's list, but the visible list is only ever
appended to — an already-promoted comment stays visible (it is dropped
from the visible list only in the zero-lag path, which replaces the
visible list by the agent's list wholesale). -/
theorem C5_removal_cancels_timer_but_keeps_promoted (lagSeconds : Nat)
    (hlag : 0 < lagSeconds) (now : Int) (st : DisplayState) (id : String) :
    (∀ t ∈ (displayStep lagSeconds now st
        (DisplayStep.event (SocketEvent.comment_deleted id))).lagTimers,
      t.commentId ≠ id) ∧
    (∀ c ∈ (displayStep lagSeconds now st
        (DisplayStep.event (SocketEvent.comment_deleted id))).comments,
      c.id ≠ id) ∧
    (∃ l, (displayStep lagSeconds now st
        (DisplayStep.event (SocketEvent.comment_deleted id))).visibleComments
      = st.visibleComments ++ l) ∧
    (∀ t ∈ (displayStep lagSeconds now st
        (DisplayStep.event (SocketEvent.comment_hidden id))).lagTimers,
      t.commentId ≠ id) ∧
    (∃ l, (displayStep lagSeconds now st
        (DisplayStep.event (SocketEvent.comment_hidden id))).visibleComments
      = st.visibleComments ++ l) := by
  have h0 : ¬ lagSeconds = 0 := Nat.pos_iff_ne_zero.mp hlag
  have hfilter : ∀ c ∈ st.comments.filter (fun c => c.id ≠ id), c.id ≠ id :=
    fun c hc => of_decide_eq_true (List.mem_filter.mp hc).2
  obtain ⟨hcomm, ⟨l, hvis, -⟩, htim⟩ := runLagEffect_pos_spec lagSeconds h0 now
    { st with comments := st.comments.filter (fun c => c.id ≠ id) }
  have hstep : ∀ ev, displayStep lagSeconds now st (DisplayStep.event ev)
      = runLagEffect lagSeconds now { st with comments := socketApply ev st.comments } :=
    fun _ => rfl
  simp only [hstep, socketApply]
  refine ⟨?_, ?_, ⟨l, hvis⟩, ?_, ⟨l, hvis⟩⟩
  · intro t ht
    obtain ⟨hp, hk⟩ := htim t ht
    exact hk ▸ hfilter _ hp
  · intro c hc
    rw [hcomm] at hc
    exact hfilter c hc
  · intro t ht
    obtain ⟨hp, hk⟩ := htim t ht
    exact hk ▸ hfilter _ hp

/-- Witness for C5 at `lagSeconds = 5`: deleting `"c2"` while its timer is
pending cancels the timer, empties the list of that id, and leaves the
previously promoted `sampleA` visible. -/
theorem C5_removal_cancels_timer_but_keeps_promoted_witness :
    (∀ t ∈ (displayStep 5 2000 ⟨[sampleA, sampleB], [sampleA], [⟨"c2", 6000, sampleB⟩]⟩
        (DisplayStep.event (SocketEvent.comment_deleted "c2"))).lagTimers,
      t.commentId ≠ "c2") ∧
    (∀ c ∈ (displayStep 5 2000 ⟨[sampleA, sampleB], [sampleA], [⟨"c2", 6000, sampleB⟩]⟩
        (DisplayStep.event (SocketEvent.comment_deleted "c2"))).comments,
      c.id ≠ "c2") ∧
    (∃ l, (displayStep 5 2000 ⟨[sampleA, sampleB], [sampleA], [⟨"c2", 6000, sampleB⟩]⟩
        (DisplayStep.event (SocketEvent.comment_deleted "c2"))).visibleComments
      = [sampleA] ++ l) ∧
    (∀ t ∈ (displayStep 5 2000 ⟨[sampleA, sampleB], [sampleA], [⟨"c2", 6000, sampleB⟩]⟩
        (DisplayStep.event (SocketEvent.comment_hidden "c2"))).lagTimers,
      t.commentId ≠ "c2") ∧
    (∃ l, (displayStep 5 2000 ⟨[sampleA, sampleB], [sampleA], [⟨"c2", 6000, sampleB⟩]⟩
        (DisplayStep.event (SocketEvent.comment_hidden "c2"))).visibleComments
      = [sampleA] ++ l) :=
  C5_removal_cancels_timer_but_keeps_promoted 5 (by decide) 2000
    ⟨[sampleA, sampleB], [sampleA], [⟨"c2", 6000, sampleB⟩]⟩ "c2"

/-- C6: applying the same `comment_hidden` event to a moderator agent and
a public agent of the same instance leaves the comment present in the
moderator list, marked with the hidden flag, and absent from the public
list. -/
theorem C6_hidden_marked_for_moderator_absent_for_public (ast : AdminSocketState)
    (pst : SocketState) (id : String)
    (h : ∃ c ∈ ast.allComments, c.id = id) :
    (∃ c ∈ (adminCommentHidden id ast).allComments, c.id = id ∧ c.hidden = true) ∧
    (∀ c ∈ (onCommentHidden id pst).comments, c.id ≠ id) := by
  constructor
  · obtain ⟨c, hc, hcid⟩ := h
    refine ⟨{ c with hidden := true }, ?_, hcid, rfl⟩
    have hmap := List.mem_map_of_mem
      (fun c => if c.id = id then { c with hidden := true } else c) hc
    simpa [adminCommentHidden, hcid] using hmap
  · intro c hc
    exact of_decide_eq_true (List.mem_filter.mp hc).2

/-- Witness for C6: `sampleA` (id `"c1"`) is in both agents' lists; after
`comment_hidden "c1"` it is hidden-marked in the moderator list and gone
from the public list. -/
theorem C6_hidden_marked_for_moderator_absent_for_public_witness :
    (∃ c ∈ (adminCommentHidden "c1" ⟨[sampleA, sampleB], none⟩).allComments,
      c.id = "c1" ∧ c.hidden = true) ∧
    (∀ c ∈ (onCommentHidden "c1" ⟨[sampleA, sampleB], none, [], none⟩).comments,
      c.id ≠ "c1") :=
  C6_hidden_marked_for_moderator_absent_for_public ⟨[sampleA, sampleB], none⟩
    ⟨[sampleA, sampleB], none, [], none⟩ "c1" (by decide)

/-- C7: joining an instance arms the fallback timer for exactly 2000 ms;
an `initial_comments` snapshot cancels it (and replaces the list); if the
timer fires first with no push event in between, the agent adopts the
list fetched from the store endpoint wholesale, so its list equals the
store's list at fetch time. -/
theorem C7_fallback_convergence (now : Int) (st : SocketState)
    (cs fetched : List Comment) :
    (joinInstance now st).fallbackTimeout = some (now + 2000) ∧
    (onInitialComments cs (joinInstance now st)).fallbackTimeout = none ∧
    (onInitialComments cs (joinInstance now st)).comments = cs ∧
    (fireFallback fetched true (joinInstance now st)).comments = fetched ∧
    (fireFallback fetched true (joinInstance now st)).fallbackTimeout = none := by
  refine ⟨rfl, rfl, rfl, ?_, rfl⟩
  simp [fireFallback]

/-- C8 counterexample: after `instance_deleted` the handlers stay
registered, so a subsequent `new_comment` is still applied — the public
agent's list becomes `[sampleA]`, not empty, and likewise for the
moderator agent.  The claimed terminal state does not exist in the
code. -/
theorem C8_counterexample :
    (handleNewComment 0 sampleA
        (onInstanceDeleted ⟨[sampleB], some {}, [], none⟩)).comments = [sampleA] ∧
    ¬ (handleNewComment 0 sampleA
        (onInstanceDeleted ⟨[sampleB], some {}, [], none⟩)).comments = [] ∧
    (adminNewComment sampleA
        (adminInstanceDeleted ⟨[sampleB], some {}⟩)).allComments = [sampleA] := by
  decide

/-- C8 amended: `instance_deleted` clears the comment list and the
settings, but the agent is not terminal: every handler stays registered,
so a later `new_comment` is appended and a later `settings_updated` is
adopted, for both roles. -/
theorem C8_deletion_clears_but_agent_stays_live (st : SocketState)
    (ast : AdminSocketState) (now : Int) (c : Comment) (s : DisplaySettings) :
    (onInstanceDeleted st).comments = [] ∧
    (onInstanceDeleted st).settings = none ∧
    (adminInstanceDeleted ast).allComments = [] ∧
    (adminInstanceDeleted ast).settings = none ∧
    (handleNewComment now c (onInstanceDeleted st)).comments = [c] ∧
    (onSettingsUpdated s (onInstanceDeleted st)).settings = some s ∧
    (adminNewComment c (adminInstanceDeleted ast)).allComments = [c] := by
  refine ⟨rfl, rfl, rfl, rfl, ?_, rfl, rfl⟩
  simp [handleNewComment, lagSecondsOf, onInstanceDeleted]

/-- C9: `comment_shown` re-inserts the delivered payload for the public
role only when the id is not already present (no re-fetch, list unchanged
otherwise), and for the moderator role rewrites the list pointwise,
clearing the hidden flag on the matching entry and leaving every other
entry unchanged. -/
theorem C9_shown_reinserts_public_unhides_moderator (pst : SocketState)
    (ast : AdminSocketState) (id : String) (payload : Comment) :
    ((∃ c ∈ pst.comments, c.id = id) →
       (onCommentShown id payload pst).comments = pst.comments) ∧
    ((∀ c ∈ pst.comments, c.id ≠ id) →
       (onCommentShown id payload pst).comments = pst.comments ++ [payload]) ∧
    (∀ i : Nat, (adminCommentShown id ast).allComments[i]? =
       (ast.allComments[i]?).map
         (fun c => if c.id = id then { c with hidden := false } else c)) := by
  refine ⟨?_, ?_, ?_⟩
  · intro h
    have hsome : (pst.comments.find? (fun c => c.id = id)).isSome = true := by
      cases hfind : pst.comments.find? (fun c => c.id = id) with
      | some _ => rfl
      | none =>
          obtain ⟨c, hc, hcid⟩ := h
          have := List.find?_eq_none.mp hfind c hc
          simp [hcid] at this
    simp [onCommentShown, hsome]
  · intro h
    have hnone : pst.comments.find? (fun c => c.id = id) = none :=
      List.find?_eq_none.mpr (by intro c hc; simpa using h c hc)
    simp [onCommentShown, hnone]
  · intro i
    simp [adminCommentShown]

/-- Witness for C9: with `"c1"` present the public list is unchanged; with
it absent the payload is appended; the moderator handler unhides entry 0
pointwise. -/
theorem C9_shown_reinserts_public_unhides_moderator_witness :
    (onCommentShown "c1" sampleA ⟨[sampleA], none, [], none⟩).comments
      = (⟨[sampleA], none, [], none⟩ : SocketState).comments ∧
    (onCommentShown "c1" sampleA ⟨[sampleB], none, [], none⟩).comments
      = (⟨[sampleB], none, [], none⟩ : SocketState).comments ++ [sampleA] ∧
    (adminCommentShown "c1" ⟨[sampleA], none⟩).allComments[0]? =
      ((⟨[sampleA], none⟩ : AdminSocketState).allComments[0]?).map
        (fun c => if c.id = "c1" then { c with hidden := false } else c) :=
  ⟨(C9_shown_reinserts_public_unhides_moderator ⟨[sampleA], none, [], none⟩
      ⟨[sampleA], none⟩ "c1" sampleA).1 (by decide),
   (C9_shown_reinserts_public_unhides_moderator ⟨[sampleB], none, [], none⟩
      ⟨[sampleA], none⟩ "c1" sampleA).2.1 (by decide),
   (C9_shown_reinserts_public_unhides_moderator ⟨[sampleA], none, [], none⟩
      ⟨[sampleA], none⟩ "c1" sampleA).2.2 0⟩

/-- C10: for a public agent with no settings yet (`settings` is `null`) or
with a stored lag of 0, `handleNewComment` treats the lag as 0
(`settings?.lag_seconds || 0`) and appends every delivered comment to the
local list immediately, arming no timer — regardless of the lag value
configured on the server. -/
theorem C10_absent_settings_mean_immediate_append (now : Int) (c : Comment)
    (st : SocketState)
    (h : st.settings = none ∨ ∃ s, st.settings = some s ∧ s.lag_seconds = 0) :
    handleNewComment now c st = { st with comments := st.comments ++ [c] } := by
  have hlag : lagSecondsOf st.settings = 0 := by
    rcases h with h | ⟨s, hs, hl⟩
    · rw [h]; rfl
    · rw [hs]; exact hl
  simp [handleNewComment, hlag]

/-- Witness for C10: a fresh agent (no settings) appends immediately. -/
theorem C10_absent_settings_mean_immediate_append_witness :
    handleNewComment 5 sampleA emptySocket
      = { emptySocket with comments := emptySocket.comments ++ [sampleA] } :=
  C10_absent_settings_mean_immediate_append 5 sampleA emptySocket (Or.inl rfl)

end EasyComment
